import Mathlib

/-
Verification development for the gdalcubes cube-operator surface
(`src/src/RcppExports.cpp`).  The binding surface declares the operator
constructors; the operator semantics themselves are modelled from the
specification (spec.md), since only the generated binding file is part of
this repository.  Cell values are modelled as `Option ℚ` (`none` is the
nodata sentinel); chunk buffers are band-major lists sized to the actual
chunk extent.
-/

namespace Gdalcubes

/-- Modelled from the spec: the shared geometric/temporal descriptor of a
cube: total cell counts along time, y, x, and the nominal chunk shape
(cells per chunk along each axis). -/
structure CubeView where
  nt : Nat
  ny : Nat
  nx : Nat
  ct : Nat
  cy : Nat
  cx : Nat
deriving DecidableEq, Repr

/-- Modelled from the spec: a chunk id as a (t, y, x) triple index into the
chunk grid. -/
structure ChunkId where
  t : Nat
  y : Nat
  x : Nat
deriving DecidableEq, Repr

/-- Modelled from the spec: number of chunks along one axis: total cells
`n`, chunk size `cs`, rounded up. -/
def ccount (n cs : Nat) : Nat := (n + cs - 1) / cs

/-- Modelled from the spec: the actual (possibly partial) extent of chunk
`i` along an axis with `n` total cells and nominal chunk size `cs`: the
last chunk may hold fewer cells than the nominal shape. -/
def asize (n cs i : Nat) : Nat := min cs (n - i * cs)

/-- Modelled from the spec: a materialized chunk: actual dimensions and a
band-major buffer (one flattened (t, y, x) cell block per band). -/
@[ext]
structure Chunk where
  dt : Nat
  dy : Nat
  dx : Nat
  buf : List (List (Option ℚ))
deriving DecidableEq, Repr

/-- Modelled from the spec: one band's flattened cell block over the chunk
extent, laid out t-major: the cell (t, y, x) lives at offset
`(t * dy + y) * dx + x`. -/
def mkBlock (f : Nat → Nat → Nat → Option ℚ) (dt dy dx : Nat) : List (Option ℚ) :=
  (List.range (dt * dy * dx)).map (fun i => f (i / dx / dy) (i / dx % dy) (i % dx))

/-- Cell accessor of a chunk buffer: band `b`, in-chunk coordinates
(t, y, x); out-of-range access yields the nodata sentinel. -/
def Chunk.cellAt (c : Chunk) (b t y x : Nat) : Option ℚ :=
  (c.buf.getD b []).getD ((t * c.dy + y) * c.dx + x) none

/-- Modelled from the spec: the supported time/space reducers (sum, mean,
median, min, max, count of non-nodata, standard deviation, variance, first,
last, and which-style argmin/argmax). -/
inductive Reducer where
  | rsum | rmean | rmedian | rmin | rmax | rcount | rsd | rvar
  | rfirst | rlast | rwhichMin | rwhichMax
deriving DecidableEq, Repr

/-- Name of a reducer as used in derived band names. -/
def Reducer.rname : Reducer → String
  | .rsum => "sum" | .rmean => "mean" | .rmedian => "median"
  | .rmin => "min" | .rmax => "max" | .rcount => "count"
  | .rsd => "sd" | .rvar => "var" | .rfirst => "first"
  | .rlast => "last" | .rwhichMin => "which_min" | .rwhichMax => "which_max"

/-- Median of a list of rationals: middle element of the sorted list, or
the average of the two middle elements for even length. -/
def medianQ (xs : List ℚ) : ℚ :=
  let s := List.insertionSort (fun a b => a ≤ b) xs
  let n := s.length
  if n % 2 = 1 then s.getD (n / 2) 0
  else (s.getD (n / 2 - 1) 0 + s.getD (n / 2) 0) / 2

/-- Sample variance with denominator `n - 1` of a list of rationals
(0 when fewer than two samples). -/
def varQ (xs : List ℚ) : ℚ :=
  let n : ℚ := (xs.length : ℚ)
  if xs.length ≤ 1 then 0
  else
    let m := xs.sum / n
    ((xs.map (fun v => (v - m) * (v - m))).sum) / (n - 1)

/-- Modelled from the spec: the standard deviation of floating-point data;
its square root is irrational in general, so it is modelled here by the
floor square root on rationals (only the nodata behaviour of reducers is
specified, not the rounding of the statistic). -/
def sqrtQ (q : ℚ) : ℚ :=
  (Nat.sqrt (q.num.toNat * q.den) : ℚ) / (q.den : ℚ)

/-- Valid (non-nodata) samples of a series together with their 0-based
time positions. -/
def validEnumAux (s : List (Option ℚ)) (i : Nat) : List (Nat × ℚ) :=
  match s with
  | [] => []
  | none :: t => validEnumAux t (i + 1)
  | some v :: t => (i, v) :: validEnumAux t (i + 1)

/-- Valid samples of a series, with positions, starting at position 0. -/
def validEnum (s : List (Option ℚ)) : List (Nat × ℚ) := validEnumAux s 0

/-- Position (1-based, as a rational) of the extremal valid sample of a
series, with ties resolved towards the earlier position. -/
def whichIdx (strictlyBetter : ℚ → ℚ → Prop) [DecidableRel strictlyBetter]
    (s : List (Option ℚ)) : Option ℚ :=
  match validEnum s with
  | [] => none
  | h :: t =>
    some (((t.foldl (fun acc p => if strictlyBetter p.2 acc.2 then p else acc) h).1 : ℚ) + 1)

/-- Modelled from the spec: applying a reducer to one cell's time series;
nodata cells are excluded from the statistic, and a series whose every
sample is nodata yields nodata. -/
def applyReducer (r : Reducer) (xs : List (Option ℚ)) : Option ℚ :=
  let v := xs.filterMap id
  match r with
  | .rsum => if v = [] then none else some v.sum
  | .rmean => if v = [] then none else some (v.sum / (v.length : ℚ))
  | .rmedian => if v = [] then none else some (medianQ v)
  | .rmin => if v = [] then none else some (v.foldl min (v.headD 0))
  | .rmax => if v = [] then none else some (v.foldl max (v.headD 0))
  | .rcount => if v = [] then none else some ((v.length : ℚ))
  | .rsd => if v = [] then none else some (sqrtQ (varQ v))
  | .rvar => if v = [] then none else some (varQ v)
  | .rfirst => if v = [] then none else some (v.headD 0)
  | .rlast => if v = [] then none else some (v.getLastD 0)
  | .rwhichMin => whichIdx (fun a b => a < b) xs
  | .rwhichMax => whichIdx (fun a b => b < a) xs

/-- Modelled from the spec: per-cell arithmetic expressions over band
names, the opaque evaluator capability consumed by apply-pixel. -/
inductive Expr where
  | const (q : ℚ)
  | band (name : String)
  | add (a b : Expr)
  | sub (a b : Expr)
  | mul (a b : Expr)
deriving DecidableEq, Repr

/-- Band names referenced by an expression (validated at construction). -/
def Expr.bandRefs : Expr → List String
  | .const _ => []
  | .band n => [n]
  | .add a b => a.bandRefs ++ b.bandRefs
  | .sub a b => a.bandRefs ++ b.bandRefs
  | .mul a b => a.bandRefs ++ b.bandRefs

/-- Evaluation of an expression in a cell environment mapping band names
to values; any nodata operand makes the result nodata. -/
def evalExpr : Expr → (String → Option ℚ) → Option ℚ
  | .const q, _ => some q
  | .band n, env => env n
  | .add a b, env =>
    match evalExpr a env, evalExpr b env with
    | some u, some v => some (u + v)
    | _, _ => none
  | .sub a b, env =>
    match evalExpr a env, evalExpr b env with
    | some u, some v => some (u - v)
    | _, _ => none
  | .mul a b, env =>
    match evalExpr a env, evalExpr b env with
    | some u, some v => some (u * v)
    | _, _ => none

/-- Modelled from the spec: boolean per-cell predicates over band values
for the predicate-filter cube. -/
inductive Pred where
  | gt (a b : Expr)
  | ge (a b : Expr)
  | lt (a b : Expr)
  | le (a b : Expr)
  | eq (a b : Expr)
  | ne (a b : Expr)
  | pand (p q : Pred)
  | por (p q : Pred)
  | pnot (p : Pred)
deriving DecidableEq, Repr

/-- Evaluation of a predicate in a cell environment; a comparison with a
nodata operand evaluates to false. -/
def evalPred : Pred → (String → Option ℚ) → Bool
  | .gt a b, env =>
    match evalExpr a env, evalExpr b env with
    | some u, some v => decide (v < u)
    | _, _ => false
  | .ge a b, env =>
    match evalExpr a env, evalExpr b env with
    | some u, some v => decide (v ≤ u)
    | _, _ => false
  | .lt a b, env =>
    match evalExpr a env, evalExpr b env with
    | some u, some v => decide (u < v)
    | _, _ => false
  | .le a b, env =>
    match evalExpr a env, evalExpr b env with
    | some u, some v => decide (u ≤ v)
    | _, _ => false
  | .eq a b, env =>
    match evalExpr a env, evalExpr b env with
    | some u, some v => decide (u = v)
    | _, _ => false
  | .ne a b, env =>
    match evalExpr a env, evalExpr b env with
    | some u, some v => decide (u ≠ v)
    | _, _ => false
  | .pand p q, env => evalPred p env && evalPred q env
  | .por p q, env => evalPred p env || evalPred q env
  | .pnot p, env => !evalPred p env

/-- Modelled from the spec: the gap-filling methods of the fill-time cube:
nearest valid neighbour in time, last observation carried forward, and
linear interpolation between the nearest valid samples on each side. -/
inductive FillMethod where
  | near | locf | linear
deriving DecidableEq, Repr

/-- Largest valid (non-nodata) position strictly below `i` in a series. -/
def prevValid (s : Nat → Option ℚ) : Nat → Option Nat
  | 0 => none
  | i + 1 => if (s i).isSome then some i else prevValid s i

/-- Scan for the first valid position at or after `j`, with `fuel`
remaining positions to inspect. -/
def nextValidAux (s : Nat → Option ℚ) : Nat → Nat → Option Nat
  | 0, _ => none
  | fuel + 1, j => if (s j).isSome then some j else nextValidAux s fuel (j + 1)

/-- Smallest valid position strictly above `i` and below `nt`. -/
def nextValid (s : Nat → Option ℚ) (nt i : Nat) : Option Nat :=
  nextValidAux s (nt - (i + 1)) (i + 1)

/-- Modelled from the spec: gap filling of one cell's time series.  Valid
samples pass through unchanged; a nodata sample is replaced according to
the method, and a gap with no valid sample on a required side stays
nodata. -/
def fillSeries (m : FillMethod) (nt : Nat) (s : Nat → Option ℚ) (i : Nat) : Option ℚ :=
  match s i with
  | some v => some v
  | none =>
    match m with
    | .linear =>
      match prevValid s i, nextValid s nt i with
      | some l, some r =>
        match s l, s r with
        | some vl, some vr =>
          some (vl + (vr - vl) * (((i : ℚ) - (l : ℚ)) / ((r : ℚ) - (l : ℚ))))
        | _, _ => none
      | _, _ => none
    | .locf => (prevValid s i).bind s
    | .near =>
      match prevValid s i, nextValid s nt i with
      | some l, some r => if i - l ≤ r - i then s l else s r
      | some l, none => s l
      | none, some r => s r
      | none, none => none

/-- Modelled from the spec: windowed kernel convolution over time at one
output step `t`: the kernel is truncated to in-range samples, nodata
samples are excluded, weights are renormalized over the remaining support,
and a zero weight sum yields nodata. -/
def kernelCell (kernel : List ℚ) (before after nt : Nat) (s : Nat → Option ℚ)
    (t : Nat) : Option ℚ :=
  let pairs := (List.range (before + after + 1)).filterMap (fun j =>
    if before ≤ t + j ∧ t + j - before < nt then
      match s (t + j - before) with
      | some v => some (kernel.getD j 0, v)
      | none => none
    else none)
  let ws := (pairs.map Prod.fst).sum
  if ws = 0 then none else some ((pairs.map (fun p => p.1 * p.2)).sum / ws)

/-- Namespacing of a band name with a caller-supplied prefix string (used
by join-bands to avoid collisions); an empty string leaves names as-is. -/
def applyNs (p n : String) : String := if p = "" then n else p ++ "." ++ n

/-- Modelled from the spec: the declared output band names of a streaming
variant: the caller-supplied names when they match the declared count,
otherwise generated names, so the declared count always rules. -/
def streamBandNames (nb : Nat) (names : List String) : List String :=
  if names.length = nb then names else (List.range nb).map (fun i => "band" ++ toString (i + 1))

/-- Modelled from the spec: the closed set of cube operator node variants:
a generic source leaf (covering the image-collection and dummy leaves),
reduce-over-time, reduce-over-space, windowed kernel-over-time,
apply-pixel, select-bands, join-bands, predicate filter, time-gap fill,
and the streaming reduce-time / apply-pixel variants whose external
process is modelled as an opaque function. -/
inductive Cube where
  | source (v : CubeView) (bandList : List String) (d : Nat → Nat → Nat → Nat → Option ℚ)
  | reduceTime (rs : List Reducer) (bs : List String) (child : Cube)
  | reduceSpace (rs : List Reducer) (bs : List String) (child : Cube)
  | windowKernel (before after : Nat) (kernel : List ℚ) (child : Cube)
  | applyPixel (exprs : List Expr) (names : List String) (keep : Bool) (child : Cube)
  | selectBands (names : List String) (child : Cube)
  | joinBands (pA pB : String) (a b : Cube)
  | filterPred (p : Pred) (child : Cube)
  | fillTime (m : FillMethod) (child : Cube)
  | streamReduceTime (nb : Nat) (names : List String)
      (proc : List (List (Option ℚ)) → List (Option ℚ)) (child : Cube)
  | streamApplyPixel (nb : Nat) (names : List String)
      (proc : List (Option ℚ) → List (Option ℚ)) (keep : Bool) (child : Cube)

/-- Modelled from the spec: the Cube View of each node, derived from its
child's view; time reduction collapses the time axis to one cell, space
reduction collapses the spatial axes. -/
def Cube.view : Cube → CubeView
  | .source v _ _ => v
  | .reduceTime _ _ c => { c.view with nt := 1, ct := 1 }
  | .reduceSpace _ _ c => { c.view with ny := 1, nx := 1, cy := 1, cx := 1 }
  | .windowKernel _ _ _ c => c.view
  | .applyPixel _ _ _ c => c.view
  | .selectBands _ c => c.view
  | .joinBands _ _ a _ => a.view
  | .filterPred _ c => c.view
  | .fillTime _ c => c.view
  | .streamReduceTime _ _ _ c => { c.view with nt := 1, ct := 1 }
  | .streamApplyPixel _ _ _ _ c => c.view

/-- Modelled from the spec: the ordered band list published by each node:
reduction produces one band per (reducer, band) pair, apply-pixel appends
its derived bands (optionally after the retained input bands), select
projects the requested names in order, join concatenates both children's
optionally namespaced bands. -/
def Cube.bands : Cube → List String
  | .source _ bs _ => bs
  | .reduceTime rs bs _ =>
    rs.flatMap (fun r => bs.map (fun b => r.rname ++ "(" ++ b ++ ")"))
  | .reduceSpace rs bs _ =>
    rs.flatMap (fun r => bs.map (fun b => r.rname ++ "(" ++ b ++ ")"))
  | .windowKernel _ _ _ c => c.bands
  | .applyPixel _ names keep c => (if keep then c.bands else []) ++ names
  | .selectBands names _ => names
  | .joinBands pA pB a b => a.bands.map (applyNs pA) ++ b.bands.map (applyNs pB)
  | .filterPred _ c => c.bands
  | .fillTime _ c => c.bands
  | .streamReduceTime nb names _ _ => streamBandNames nb names
  | .streamApplyPixel nb names _ keep c =>
    (if keep then c.bands else []) ++ streamBandNames nb names

/-- Modelled from the spec: the cell denotation of each node: the value of
output band `b` at global cell (t, y, x).  A `read_chunk` call materializes
this denotation over the chunk's actual extent.  Out-of-range bands and
cells are nodata. -/
def Cube.cell : Cube → Nat → Nat → Nat → Nat → Option ℚ
  | .source v bs d, b, t, y, x =>
    if b < bs.length ∧ t < v.nt ∧ y < v.ny ∧ x < v.nx then d b t y x else none
  | .reduceTime rs bs c, b, _, y, x =>
    if b < rs.length * bs.length then
      applyReducer (rs.getD (b / bs.length) Reducer.rmean)
        ((List.range (Cube.view c).nt).map (fun tau =>
          if (bs.getD (b % bs.length) "") ∈ Cube.bands c then
            Cube.cell c (List.indexOf (bs.getD (b % bs.length) "") (Cube.bands c)) tau y x
          else none))
    else none
  | .reduceSpace rs bs c, b, t, _, _ =>
    if b < rs.length * bs.length then
      applyReducer (rs.getD (b / bs.length) Reducer.rmean)
        ((List.range (Cube.view c).ny).flatMap (fun yy =>
          (List.range (Cube.view c).nx).map (fun xx =>
            if (bs.getD (b % bs.length) "") ∈ Cube.bands c then
              Cube.cell c (List.indexOf (bs.getD (b % bs.length) "") (Cube.bands c)) t yy xx
            else none)))
    else none
  | .windowKernel before after k c, b, t, y, x =>
    kernelCell k before after (Cube.view c).nt (fun tau => Cube.cell c b tau y x) t
  | .applyPixel exprs _ keep c, b, t, y, x =>
    let base := if keep then (Cube.bands c).length else 0
    if b < base then Cube.cell c b t y x
    else if b - base < exprs.length then
      evalExpr (exprs.getD (b - base) (Expr.const 0))
        (fun n => if n ∈ Cube.bands c then
          Cube.cell c (List.indexOf n (Cube.bands c)) t y x else none)
    else none
  | .selectBands names c, b, t, y, x =>
    if b < names.length ∧ (names.getD b "") ∈ Cube.bands c then
      Cube.cell c (List.indexOf (names.getD b "") (Cube.bands c)) t y x
    else none
  | .joinBands _ _ a bb, b, t, y, x =>
    if b < (Cube.bands a).length then Cube.cell a b t y x
    else Cube.cell bb (b - (Cube.bands a).length) t y x
  | .filterPred p c, b, t, y, x =>
    if evalPred p (fun n => if n ∈ Cube.bands c then
        Cube.cell c (List.indexOf n (Cube.bands c)) t y x else none)
    then Cube.cell c b t y x else none
  | .fillTime m c, b, t, y, x =>
    fillSeries m (Cube.view c).nt (fun tau => Cube.cell c b tau y x) t
  | .streamReduceTime nb _ proc c, b, _, y, x =>
    let out := proc ((List.range (Cube.bands c).length).map (fun j =>
      (List.range (Cube.view c).nt).map (fun tau => Cube.cell c j tau y x)))
    if out.length = nb ∧ b < nb then out.getD b none else none
  | .streamApplyPixel nb _ proc keep c, b, t, y, x =>
    let base := if keep then (Cube.bands c).length else 0
    if b < base then Cube.cell c b t y x
    else
      let out := proc ((List.range (Cube.bands c).length).map (fun j => Cube.cell c j t y x))
      if out.length = nb ∧ b - base < nb then out.getD (b - base) none else none

/-- Cell environment of a cube at a global cell: band values by name
(unknown names are nodata). -/
def bandEnv (c : Cube) (t y x : Nat) : String → Option ℚ :=
  fun n => if n ∈ c.bands then c.cell (List.indexOf n c.bands) t y x else none

/-- Modelled from the spec: `read_chunk`, shared by every node variant:
materializes the node's cell denotation over the chunk's actual (possibly
partial) extent, band-major, never padded to the nominal chunk shape. -/
def Cube.read_chunk (c : Cube) (id : ChunkId) : Chunk :=
  { dt := asize c.view.nt c.view.ct id.t,
    dy := asize c.view.ny c.view.cy id.y,
    dx := asize c.view.nx c.view.cx id.x,
    buf := (List.range c.bands.length).map (fun b =>
      mkBlock (fun t y x =>
        c.cell b (id.t * c.view.ct + t) (id.y * c.view.cy + y) (id.x * c.view.cx + x))
        (asize c.view.nt c.view.ct id.t)
        (asize c.view.ny c.view.cy id.y)
        (asize c.view.nx c.view.cx id.x)) }

/-- Embedding of `libgdalcubes_create_select_bands_cube` from
`src/src/RcppExports.cpp` (the implementation behind the binding is not
part of this repository; modelled from the spec): requesting an unknown
band name is a construction-time error, otherwise the select-bands node
is built. -/
def libgdalcubes_create_select_bands_cube (c : Cube) (names : List String) :
    Except String Cube :=
  if names.all (fun n => c.bands.contains n) then .ok (Cube.selectBands names c)
  else .error "select_bands: unknown band name"

/-- Embedding of `libgdalcubes_create_apply_pixel_cube` (modelled from the
spec): expressions are validated at construction time to reference only
known band names. -/
def libgdalcubes_create_apply_pixel_cube (c : Cube) (exprs : List Expr)
    (names : List String) (keep : Bool) : Except String Cube :=
  if exprs.all (fun e => e.bandRefs.all (fun n => c.bands.contains n)) then
    .ok (Cube.applyPixel exprs names keep c)
  else .error "apply_pixel: expression references unknown band"

/-- Embedding of `libgdalcubes_create_join_bands_cube` (modelled from the
spec): both children must share an identical Cube View, otherwise
construction fails. -/
def libgdalcubes_create_join_bands_cube (a b : Cube) (pA pB : String) :
    Except String Cube :=
  if a.view = b.view then .ok (Cube.joinBands pA pB a b)
  else .error "join_bands: incompatible cube views"

/-- Embedding of `libgdalcubes_create_reduce_time_cube` (modelled from the
spec): one output band per (reducer, band) pair over the child cube. -/
def libgdalcubes_create_reduce_time_cube (c : Cube) (rs : List Reducer)
    (bs : List String) : Cube :=
  Cube.reduceTime rs bs c

/-- Embedding of `libgdalcubes_create_window_time_cube_kernel` (modelled
from the spec): window given as (before, after) counts, explicit numeric
kernel. -/
def libgdalcubes_create_window_time_cube_kernel (c : Cube) (window : List Int)
    (kernel : List ℚ) : Cube :=
  Cube.windowKernel (window.getD 0 0).toNat (window.getD 1 0).toNat kernel c

/-- Embedding of `libgdalcubes_create_filter_predicate_cube` (modelled
from the spec); the predicate string is parsed externally, modelled as the
predicate AST. -/
def libgdalcubes_create_filter_predicate_cube (c : Cube) (p : Pred) : Cube :=
  Cube.filterPred p c

/-- Embedding of `libgdalcubes_create_fill_time_cube` (modelled from the
spec); the method string is parsed externally, modelled as the method
enumeration. -/
def libgdalcubes_create_fill_time_cube (c : Cube) (m : FillMethod) : Cube :=
  Cube.fillTime m c

/-- Conversion applied at the binding surface where a parameter is
declared `uint16_t` in `src/src/RcppExports.cpp`: C++ conversion to an
unsigned 16-bit integer reduces the value modulo 2^16. -/
def uint16OfInt (n : Int) : Nat := (n % 65536).toNat

/-- Embedding of `libgdalcubes_create_dummy_cube` from
`src/src/RcppExports.cpp`: the band count parameter is declared
`uint16_t`; the cube itself (a constant-filled leaf with generated band
names) is modelled from the spec. -/
def libgdalcubes_create_dummy_cube (v : CubeView) (nbands : Int) (fill : ℚ) : Cube :=
  Cube.source v
    ((List.range (uint16OfInt nbands)).map (fun i => "band" ++ toString (i + 1)))
    (fun _ _ _ _ => some fill)

/-- Embedding of `libgdalcubes_create_stream_reduce_time_cube` from
`src/src/RcppExports.cpp`: the declared output band count parameter is
`uint16_t`; the external process is modelled as an opaque function. -/
def libgdalcubes_create_stream_reduce_time_cube (c : Cube) (_cmd : String)
    (nbands : Int) (names : List String)
    (proc : List (List (Option ℚ)) → List (Option ℚ)) : Cube :=
  Cube.streamReduceTime (uint16OfInt nbands) names proc c

/-- Embedding of `libgdalcubes_create_stream_apply_pixel_cube` from
`src/src/RcppExports.cpp`: the declared output band count parameter is
`uint16_t`; the external process is modelled as an opaque function. -/
def libgdalcubes_create_stream_apply_pixel_cube (c : Cube) (_cmd : String)
    (nbands : Int) (names : List String) (keep : Bool)
    (proc : List (Option ℚ) → List (Option ℚ)) : Cube :=
  Cube.streamApplyPixel (uint16OfInt nbands) names proc keep c

/-- Modelled from the spec: the chunk scheduler: enumerates chunk ids in
some completion order (1-thread or N-thread evaluation and concurrent
interleavings only change this order) and collects each chunk produced by
`read_chunk`. -/
def runSchedule (c : Cube) (order : List ChunkId) : List (ChunkId × Chunk) :=
  order.map (fun id => (id, c.read_chunk id))

/-- Result of a scheduled evaluation for one chunk id. -/
def lookupChunk (results : List (ChunkId × Chunk)) (id : ChunkId) : Option Chunk :=
  (results.find? (fun p => decide (p.1 = id))).map Prod.snd

/-- Concrete one-cell source cube whose every sample is nodata. -/
def srcAllNone : Cube :=
  Cube.source ⟨1, 1, 1, 1, 1, 1⟩ ["B1"] (fun _ _ _ _ => none)

/-- Concrete three-step source cube with time series 1, 2, 3. -/
def srcSeq : Cube :=
  Cube.source ⟨3, 1, 1, 3, 1, 1⟩ ["B1"] (fun _ t _ _ => some ((t : ℚ) + 1))

/-- Concrete one-cell source cube with two bands whose B1 values are 5. -/
def srcB5 : Cube :=
  Cube.source ⟨1, 1, 1, 1, 1, 1⟩ ["B1", "B2"] (fun _ _ _ _ => some 5)

/-- Concrete predicate B1 > 10. -/
def predB1gt10 : Pred := Pred.gt (Expr.band "B1") (Expr.const 10)

/-- Concrete three-step series 1, nodata, 3 (interior gap at t = 1). -/
def srcGap : Cube :=
  Cube.source ⟨3, 1, 1, 3, 1, 1⟩ ["B1"]
    (fun _ t _ _ => if t = 0 then some 1 else if t = 2 then some 3 else none)

/-- Concrete two-step series nodata, 7 (leading gap at t = 0). -/
def srcLead : Cube :=
  Cube.source ⟨2, 1, 1, 2, 1, 1⟩ ["B1"]
    (fun _ t _ _ => if t = 1 then some 7 else none)

/-- Concrete one-band companion cube sharing srcSeq's view, values 9. -/
def srcB9 : Cube :=
  Cube.source ⟨3, 1, 1, 3, 1, 1⟩ ["B2"] (fun _ _ _ _ => some 9)

/-- Concrete cube with three time steps and time chunk size two, so the
second time chunk is partial. -/
def srcPart : Cube :=
  Cube.source ⟨3, 1, 1, 2, 1, 1⟩ ["B1"] (fun _ _ _ _ => some 0)

theorem mkBlock_length (f : Nat → Nat → Nat → Option ℚ) (dt dy dx : Nat) :
    (mkBlock f dt dy dx).length = dt * dy * dx := by
  simp [mkBlock]

theorem flat_index_lt (t y x dt dy dx : Nat) (ht : t < dt) (hy : y < dy) (hx : x < dx) :
    (t * dy + y) * dx + x < dt * dy * dx := by
  have h1 : (t * dy + y) * dx + x < (t * dy + y + 1) * dx := by
    have := Nat.add_lt_add_left hx ((t * dy + y) * dx)
    calc (t * dy + y) * dx + x < (t * dy + y) * dx + dx := this
    _ = (t * dy + y + 1) * dx := by ring
  have h2 : (t * dy + y + 1) * dx ≤ dt * dy * dx := by
    have hy1 : t * dy + y + 1 ≤ dt * dy := by
      have : t * dy + y + 1 ≤ t * dy + dy := by omega
      have h3 : t * dy + dy = (t + 1) * dy := by ring
      have h4 : (t + 1) * dy ≤ dt * dy := Nat.mul_le_mul_right dy ht
      omega
    exact Nat.mul_le_mul_right dx hy1
  omega

theorem mkBlock_getD (f : Nat → Nat → Nat → Option ℚ) (dt dy dx t y x : Nat)
    (ht : t < dt) (hy : y < dy) (hx : x < dx) :
    (mkBlock f dt dy dx).getD ((t * dy + y) * dx + x) none = f t y x := by
  have hj : (t * dy + y) * dx + x < dt * dy * dx := flat_index_lt t y x dt dy dx ht hy hx
  have hdx : 0 < dx := by omega
  have hdy : 0 < dy := by omega
  rw [mkBlock, List.getD_eq_getElem?_getD, List.getElem?_map, List.getElem?_range hj]
  simp only [Option.map_some', Option.getD_some]
  have e1 : (t * dy + y) * dx + x = x + dx * (t * dy + y) := by ring
  have hdiv : ((t * dy + y) * dx + x) / dx = t * dy + y := by
    rw [e1, Nat.add_mul_div_left x (t * dy + y) hdx, Nat.div_eq_of_lt hx]
    omega
  have hmod : ((t * dy + y) * dx + x) % dx = x := by
    rw [e1, Nat.add_mul_mod_self_left, Nat.mod_eq_of_lt hx]
  rw [hdiv, hmod]
  have e2 : t * dy + y = y + dy * t := by ring
  have hdiv2 : (t * dy + y) / dy = t := by
    rw [e2, Nat.add_mul_div_left y t hdy, Nat.div_eq_of_lt hy]
    omega
  have hmod2 : (t * dy + y) % dy = y := by
    rw [e2, Nat.add_mul_mod_self_left, Nat.mod_eq_of_lt hy]
  rw [hdiv2, hmod2]

theorem read_chunk_dt (c : Cube) (id : ChunkId) :
    (c.read_chunk id).dt = asize c.view.nt c.view.ct id.t := rfl

theorem read_chunk_dy (c : Cube) (id : ChunkId) :
    (c.read_chunk id).dy = asize c.view.ny c.view.cy id.y := rfl

theorem read_chunk_dx (c : Cube) (id : ChunkId) :
    (c.read_chunk id).dx = asize c.view.nx c.view.cx id.x := rfl

theorem read_chunk_buf (c : Cube) (id : ChunkId) :
    (c.read_chunk id).buf = (List.range c.bands.length).map (fun b =>
      mkBlock (fun t y x =>
        c.cell b (id.t * c.view.ct + t) (id.y * c.view.cy + y) (id.x * c.view.cx + x))
        (asize c.view.nt c.view.ct id.t)
        (asize c.view.ny c.view.cy id.y)
        (asize c.view.nx c.view.cx id.x)) := rfl

theorem read_chunk_cellAt (c : Cube) (id : ChunkId) (b t y x : Nat)
    (hb : b < c.bands.length)
    (ht : t < asize c.view.nt c.view.ct id.t)
    (hy : y < asize c.view.ny c.view.cy id.y)
    (hx : x < asize c.view.nx c.view.cx id.x) :
    (c.read_chunk id).cellAt b t y x =
      c.cell b (id.t * c.view.ct + t) (id.y * c.view.cy + y) (id.x * c.view.cx + x) := by
  have hbuf : (c.read_chunk id).buf.getD b [] =
      mkBlock (fun t y x =>
        c.cell b (id.t * c.view.ct + t) (id.y * c.view.cy + y) (id.x * c.view.cx + x))
        (asize c.view.nt c.view.ct id.t)
        (asize c.view.ny c.view.cy id.y)
        (asize c.view.nx c.view.cx id.x) := by
    rw [read_chunk_buf, List.getD_eq_getElem?_getD, List.getElem?_map, List.getElem?_range hb]
    simp only [Option.map_some', Option.getD_some]
  unfold Chunk.cellAt
  rw [hbuf, read_chunk_dy, read_chunk_dx]
  exact mkBlock_getD _ _ _ _ _ _ _ ht hy hx

theorem filterMap_id_nil (xs : List (Option ℚ)) (h : ∀ a ∈ xs, a = none) :
    xs.filterMap id = [] := by
  induction xs with
  | nil => rfl
  | cons a l ih =>
    have ha := h a (by simp)
    subst ha
    simpa using ih (fun b hb => h b (by simp [hb]))

theorem validEnumAux_nil (xs : List (Option ℚ)) (i : Nat) (h : ∀ a ∈ xs, a = none) :
    validEnumAux xs i = [] := by
  induction xs generalizing i with
  | nil => rfl
  | cons a l ih =>
    have ha := h a (by simp)
    subst ha
    exact ih (i + 1) (fun b hb => h b (by simp [hb]))

theorem applyReducer_all_none (r : Reducer) (xs : List (Option ℚ))
    (h : ∀ a ∈ xs, a = none) : applyReducer r xs = none := by
  have hf : xs.filterMap id = [] := filterMap_id_nil xs h
  have hv : validEnumAux xs 0 = [] := validEnumAux_nil xs 0 h
  cases r <;> simp [applyReducer, whichIdx, validEnum, hf, hv]

theorem reduceTime_bands_length (rs : List Reducer) (bs : List String) (c : Cube) :
    (Cube.reduceTime rs bs c).bands.length = rs.length * bs.length := by
  show (rs.flatMap _).length = _
  induction rs with
  | nil => simp
  | cons r l ih =>
    simp only [List.flatMap_cons, List.length_append, List.length_map, ih,
      List.length_cons, Nat.succ_mul]
    omega

/-- C1: for every input cube, non-empty reducer list and non-empty band
name list, the reduce-over-time cube has band count `|reducers| × |bands|`,
and a spatial cell whose entire input time series is nodata yields nodata
in the reduced chunk for every (reducer, band) output band. -/
theorem reduce_time_band_count_and_all_nodata
    (c : Cube) (rs : List Reducer) (bs : List String)
    (hrs : rs ≠ []) (hbs : bs ≠ [])
    (id : ChunkId) (j y x : Nat) (hid : id.t = 0)
    (hj : j < (libgdalcubes_create_reduce_time_cube c rs bs).bands.length)
    (hy : y < asize c.view.ny c.view.cy id.y)
    (hx : x < asize c.view.nx c.view.cx id.x)
    (hnodata : ∀ b tau,
      c.cell b tau (id.y * c.view.cy + y) (id.x * c.view.cx + x) = none) :
    (libgdalcubes_create_reduce_time_cube c rs bs).bands.length =
      rs.length * bs.length ∧
    ((libgdalcubes_create_reduce_time_cube c rs bs).read_chunk id).cellAt j 0 y x
      = none := by
  refine ⟨reduceTime_bands_length rs bs c, ?_⟩
  have hj' : j < rs.length * bs.length := by
    rwa [show (libgdalcubes_create_reduce_time_cube c rs bs).bands.length =
      rs.length * bs.length from reduceTime_bands_length rs bs c] at hj
  have ht1 : (0 : Nat) < asize 1 1 0 := by decide
  have ht0 : (0 : Nat) <
      asize (libgdalcubes_create_reduce_time_cube c rs bs).view.nt
        (libgdalcubes_create_reduce_time_cube c rs bs).view.ct id.t := by
    rw [hid]
    exact ht1
  have hcell := read_chunk_cellAt (libgdalcubes_create_reduce_time_cube c rs bs)
    id j 0 y x hj ht0 hy hx
  rw [hcell]
  show Cube.cell (Cube.reduceTime rs bs c) j _ _ _ = none
  rw [Cube.cell]
  rw [if_pos hj']
  apply applyReducer_all_none
  intro a ha
  obtain ⟨tau, -, rfl⟩ := List.mem_map.mp ha
  split
  · exact hnodata _ tau
  · rfl

/-- Witness for C1 at a concrete all-nodata cube, mean reducer, band B1. -/
theorem reduce_time_band_count_and_all_nodata_witness :
    (libgdalcubes_create_reduce_time_cube srcAllNone [Reducer.rmean] ["B1"]).bands.length
      = 1 * 1 ∧
    ((libgdalcubes_create_reduce_time_cube srcAllNone [Reducer.rmean] ["B1"]).read_chunk
      ⟨0, 0, 0⟩).cellAt 0 0 0 0 = none := by
  have h := reduce_time_band_count_and_all_nodata srcAllNone [Reducer.rmean] ["B1"]
    (by decide) (by decide) ⟨0, 0, 0⟩ 0 0 0 rfl (by decide) (by decide) (by decide)
    (by
      intro b tau
      simp [srcAllNone, Cube.cell])
  simpa using h

theorem kernelCell_id (nt : Nat) (s : Nat → Option ℚ) (t : Nat)
    (h1 : 1 ≤ t) (h2 : t + 1 < nt) :
    kernelCell [0, 1, 0] 1 1 nt s t = s t := by
  unfold kernelCell
  have hr : List.range (1 + 1 + 1) = [0, 1, 2] := rfl
  rw [hr]
  simp only [List.filterMap_cons, List.filterMap_nil]
  have c0 : 1 ≤ t + 0 ∧ t + 0 - 1 < nt := ⟨by omega, by omega⟩
  have c1 : 1 ≤ t + 1 ∧ t + 1 - 1 < nt := ⟨by omega, by omega⟩
  have c2 : 1 ≤ t + 2 ∧ t + 2 - 1 < nt := ⟨by omega, by omega⟩
  rw [if_pos c0, if_pos c1, if_pos c2]
  have e0 : t + 0 - 1 = t - 1 := by omega
  have e1 : t + 1 - 1 = t := by omega
  have e2 : t + 2 - 1 = t + 1 := by omega
  rw [e0, e1, e2]
  rcases hv0 : s (t - 1) with _ | v0 <;> rcases hvc : s t with _ | vc <;>
    rcases hv2 : s (t + 1) with _ | v2 <;> simp

/-- C2: the windowed kernel-over-time cube with window (1, 1) and kernel
[0, 1, 0] returns, at every interior time step, exactly the input cube's
chunk cell values. -/
theorem window_kernel_identity
    (c : Cube) (id : ChunkId) (b t y x : Nat)
    (hb : b < c.bands.length)
    (ht : t < asize c.view.nt c.view.ct id.t)
    (hy : y < asize c.view.ny c.view.cy id.y)
    (hx : x < asize c.view.nx c.view.cx id.x)
    (hlo : 1 ≤ id.t * c.view.ct + t)
    (hhi : id.t * c.view.ct + t + 1 < c.view.nt) :
    ((libgdalcubes_create_window_time_cube_kernel c [1, 1] [0, 1, 0]).read_chunk id).cellAt
        b t y x
      = (c.read_chunk id).cellAt b t y x := by
  rw [read_chunk_cellAt (libgdalcubes_create_window_time_cube_kernel c [1, 1] [0, 1, 0])
      id b t y x hb ht hy hx,
    read_chunk_cellAt c id b t y x hb ht hy hx]
  exact kernelCell_id c.view.nt
    (fun tau => c.cell b tau (id.y * c.view.cy + y) (id.x * c.view.cx + x))
    (id.t * c.view.ct + t) hlo hhi

/-- Witness for C2 at a concrete three-step series, interior step t = 1. -/
theorem window_kernel_identity_witness :
    ((libgdalcubes_create_window_time_cube_kernel srcSeq [1, 1] [0, 1, 0]).read_chunk
        ⟨0, 0, 0⟩).cellAt 0 1 0 0
      = (srcSeq.read_chunk ⟨0, 0, 0⟩).cellAt 0 1 0 0 :=
  window_kernel_identity srcSeq ⟨0, 0, 0⟩ 0 1 0 0 (by decide) (by decide) (by decide)
    (by decide) (by decide) (by decide)

theorem cell_filterPred (p : Pred) (c : Cube) (b t y x : Nat) :
    Cube.cell (Cube.filterPred p c) b t y x =
      if evalPred p (bandEnv c t y x) then c.cell b t y x else none := rfl

theorem filter_view (c : Cube) (p : Pred) :
    (libgdalcubes_create_filter_predicate_cube c p).view = c.view := rfl

theorem filterPred_view (c : Cube) (p : Pred) :
    (Cube.filterPred p c).view = c.view := rfl

/-- C3: the predicate-filter cube keeps the child's band list; a cell
where the predicate evaluates false holds nodata in all bands, and a cell
where it evaluates true holds exactly the input cell's values. -/
theorem filter_predicate_semantics
    (c : Cube) (p : Pred) (id : ChunkId) (b t y x : Nat)
    (hb : b < c.bands.length)
    (ht : t < asize c.view.nt c.view.ct id.t)
    (hy : y < asize c.view.ny c.view.cy id.y)
    (hx : x < asize c.view.nx c.view.cx id.x) :
    (libgdalcubes_create_filter_predicate_cube c p).bands = c.bands ∧
    (evalPred p (bandEnv c (id.t * c.view.ct + t) (id.y * c.view.cy + y)
        (id.x * c.view.cx + x)) = false →
      ((libgdalcubes_create_filter_predicate_cube c p).read_chunk id).cellAt b t y x
        = none) ∧
    (evalPred p (bandEnv c (id.t * c.view.ct + t) (id.y * c.view.cy + y)
        (id.x * c.view.cx + x)) = true →
      ((libgdalcubes_create_filter_predicate_cube c p).read_chunk id).cellAt b t y x
        = (c.read_chunk id).cellAt b t y x) := by
  refine ⟨rfl, ?_, ?_⟩ <;> intro hp <;>
    rw [read_chunk_cellAt (libgdalcubes_create_filter_predicate_cube c p) id b t y x hb ht hy hx] <;>
    simp only [filter_view, libgdalcubes_create_filter_predicate_cube, filterPred_view]
  · rw [cell_filterPred, hp]
    simp
  · rw [cell_filterPred, hp, read_chunk_cellAt c id b t y x hb ht hy hx]
    simp

/-- Witness for C3: filtering with B1 > 10 where every B1 cell equals 5
yields nodata in every band of the chunk. -/
theorem filter_predicate_semantics_witness :
    ((libgdalcubes_create_filter_predicate_cube srcB5 predB1gt10).read_chunk
        ⟨0, 0, 0⟩).cellAt 0 0 0 0 = none ∧
    ((libgdalcubes_create_filter_predicate_cube srcB5 predB1gt10).read_chunk
        ⟨0, 0, 0⟩).cellAt 1 0 0 0 = none := by
  have h0 := (filter_predicate_semantics srcB5 predB1gt10 ⟨0, 0, 0⟩ 0 0 0 0
    (by decide) (by decide) (by decide) (by decide)).2.1
  have h1 := (filter_predicate_semantics srcB5 predB1gt10 ⟨0, 0, 0⟩ 1 0 0 0
    (by decide) (by decide) (by decide) (by decide)).2.1
  exact ⟨h0 (by decide), h1 (by decide)⟩

theorem prevValid_eq_none (s : Nat → Option ℚ) (i : Nat)
    (h : ∀ j, j < i → s j = none) : prevValid s i = none := by
  induction i with
  | zero => rfl
  | succ k ih =>
    show (if (s k).isSome then some k else prevValid s k) = none
    rw [h k (by omega)]
    simpa using ih (fun j hj => h j (by omega))

theorem prevValid_eq_some (s : Nat → Option ℚ) (i a : Nat) (ha : a < i)
    (hs : (s a).isSome) (hgap : ∀ j, a < j → j < i → s j = none) :
    prevValid s i = some a := by
  induction i with
  | zero => omega
  | succ k ih =>
    by_cases hk : a = k
    · subst hk
      show (if (s a).isSome then some a else prevValid s a) = some a
      rw [if_pos hs]
    · have hknone : s k = none := hgap k (by omega) (by omega)
      show (if (s k).isSome then some k else prevValid s k) = some a
      rw [hknone]
      simpa using ih (by omega) (fun j h1 h2 => hgap j h1 (by omega))

theorem nextValidAux_eq_none (s : Nat → Option ℚ) (fuel j : Nat)
    (h : ∀ k, j ≤ k → k < j + fuel → s k = none) :
    nextValidAux s fuel j = none := by
  induction fuel generalizing j with
  | zero => rfl
  | succ f ih =>
    show (if (s j).isSome then some j else nextValidAux s f (j + 1)) = none
    rw [h j (by omega) (by omega)]
    simpa using ih (j + 1) (fun k h1 h2 => h k (by omega) (by omega))

theorem nextValidAux_eq_some (s : Nat → Option ℚ) (fuel j b : Nat)
    (hjb : j ≤ b) (hb : b < j + fuel) (hs : (s b).isSome)
    (hgap : ∀ k, j ≤ k → k < b → s k = none) :
    nextValidAux s fuel j = some b := by
  induction fuel generalizing j with
  | zero => omega
  | succ f ih =>
    by_cases hj : j = b
    · subst hj
      show (if (s j).isSome then some j else nextValidAux s f (j + 1)) = some j
      rw [if_pos hs]
    · have hjn : s j = none := hgap j (by omega) (by omega)
      show (if (s j).isSome then some j else nextValidAux s f (j + 1)) = some b
      rw [hjn]
      simpa using ih (j + 1) (by omega) (by omega) (fun k h1 h2 => hgap k (by omega) h2)

theorem nextValid_eq_some (s : Nat → Option ℚ) (nt i b : Nat)
    (hib : i < b) (hbn : b < nt) (hs : (s b).isSome)
    (hgap : ∀ k, i < k → k < b → s k = none) :
    nextValid s nt i = some b := by
  unfold nextValid
  exact nextValidAux_eq_some s (nt - (i + 1)) (i + 1) b (by omega) (by omega) hs
    (fun k h1 h2 => hgap k (by omega) h2)

theorem nextValid_eq_none (s : Nat → Option ℚ) (nt i : Nat)
    (h : ∀ k, i < k → k < nt → s k = none) :
    nextValid s nt i = none := by
  unfold nextValid
  exact nextValidAux_eq_none s (nt - (i + 1)) (i + 1)
    (fun k h1 h2 => h k (by omega) (by omega))

theorem cell_fillTime (m : FillMethod) (c : Cube) (b t y x : Nat) :
    (Cube.fillTime m c).cell b t y x =
      fillSeries m (Cube.view c).nt (fun tau => Cube.cell c b tau y x) t := rfl

/-- C4: time-gap fill leaves valid samples unchanged under every method;
with the linear method an interior nodata run bracketed by valid samples
is replaced by the linear interpolation between the bracketing samples,
and a leading or trailing gap with no valid sample on one side stays
nodata. -/
theorem fill_time_semantics (c : Cube) (b t y x : Nat) :
    (∀ m v, c.cell b t y x = some v →
      (libgdalcubes_create_fill_time_cube c m).cell b t y x = some v) ∧
    (∀ l r vl vr, l < t → t < r → r < c.view.nt →
      c.cell b l y x = some vl → c.cell b r y x = some vr →
      (∀ j, l < j → j < r → c.cell b j y x = none) →
      (libgdalcubes_create_fill_time_cube c FillMethod.linear).cell b t y x =
        some (vl + (vr - vl) * (((t : ℚ) - (l : ℚ)) / ((r : ℚ) - (l : ℚ))))) ∧
    ((∀ j, j ≤ t → c.cell b j y x = none) →
      (libgdalcubes_create_fill_time_cube c FillMethod.linear).cell b t y x = none) ∧
    (t < c.view.nt → (∀ j, t ≤ j → j < c.view.nt → c.cell b j y x = none) →
      (libgdalcubes_create_fill_time_cube c FillMethod.linear).cell b t y x = none) := by
  have hbt : ∀ j : Nat, (fun tau => Cube.cell c b tau y x) j = c.cell b j y x :=
    fun j => rfl
  refine ⟨?_, ?_, ?_, ?_⟩
  · intro m v hv
    show fillSeries m (Cube.view c).nt (fun tau => Cube.cell c b tau y x) t = some v
    unfold fillSeries
    rw [hbt t, hv]
  · intro l r vl vr hlt htr hrn hl hr hgap
    have hst : c.cell b t y x = none := hgap t hlt htr
    show fillSeries FillMethod.linear (Cube.view c).nt
      (fun tau => Cube.cell c b tau y x) t = _
    unfold fillSeries
    rw [hbt t, hst]
    rw [prevValid_eq_some (fun tau => Cube.cell c b tau y x) t l hlt
      (by rw [hbt l, hl]; rfl) (fun j h1 h2 => hgap j h1 (by omega))]
    rw [nextValid_eq_some (fun tau => Cube.cell c b tau y x) (Cube.view c).nt t r htr hrn
      (by rw [hbt r, hr]; rfl) (fun k h1 h2 => hgap k (by omega) h2)]
    simp only [hbt, hl, hr]
  · intro hlead
    have hst : c.cell b t y x = none := hlead t (by omega)
    show fillSeries FillMethod.linear (Cube.view c).nt
      (fun tau => Cube.cell c b tau y x) t = none
    unfold fillSeries
    rw [hbt t, hst, prevValid_eq_none (fun tau => Cube.cell c b tau y x) t
      (fun j hj => by rw [hbt j]; exact hlead j (by omega))]
  · intro htn htrail
    have hst : c.cell b t y x = none := htrail t (by omega) htn
    show fillSeries FillMethod.linear (Cube.view c).nt
      (fun tau => Cube.cell c b tau y x) t = none
    unfold fillSeries
    rw [hbt t, hst, nextValid_eq_none (fun tau => Cube.cell c b tau y x) (Cube.view c).nt t
      (fun k h1 h2 => by rw [hbt k]; exact htrail k (by omega) h2)]
    cases prevValid (fun tau => Cube.cell c b tau y x) t <;> rfl

/-- Witness for C4: valid sample unchanged under the near method, linear
interpolation across an interior gap gives the midpoint, and a leading gap
stays nodata under the linear method. -/
theorem fill_time_semantics_witness :
    (libgdalcubes_create_fill_time_cube srcGap FillMethod.near).cell 0 0 0 0 = some 1 ∧
    (libgdalcubes_create_fill_time_cube srcGap FillMethod.linear).cell 0 1 0 0 = some 2 ∧
    (libgdalcubes_create_fill_time_cube srcLead FillMethod.linear).cell 0 0 0 0 = none := by
  have h1 := fill_time_semantics srcGap 0 1 0 0
  have h0 := fill_time_semantics srcGap 0 0 0 0
  have hl := fill_time_semantics srcLead 0 0 0 0
  refine ⟨h0.1 FillMethod.near 1 (by decide), ?_, ?_⟩
  · have hb := h1.2.1 0 2 1 3 (by decide) (by decide) (by decide) (by decide) (by decide)
      (by intro j hj1 hj2; interval_cases j; decide)
    rw [hb]
    simp only [Option.some.injEq]
    push_cast
    norm_num
  · exact hl.2.2.1 (by intro j hj; interval_cases j; decide)

theorem getD_map_lt {α β : Type} (l : List α) (f : α → β) (i : Nat)
    (h : i < l.length) (d : β) (d' : α) :
    (l.map f).getD i d = f (l.getD i d') := by
  rw [List.getD_eq_getElem?_getD, List.getElem?_map,
    List.getElem?_eq_getElem h, List.getD_eq_getElem?_getD,
    List.getElem?_eq_getElem h]
  rfl

theorem joinBands_bands (pA pB : String) (a b : Cube) :
    (Cube.joinBands pA pB a b).bands =
      a.bands.map (applyNs pA) ++ b.bands.map (applyNs pB) := rfl

theorem joinBands_view (pA pB : String) (a b : Cube) :
    (Cube.joinBands pA pB a b).view = a.view := rfl

theorem selectBands_view (names : List String) (c : Cube) :
    (Cube.selectBands names c).view = c.view := rfl

theorem selectBands_bands (names : List String) (c : Cube) :
    (Cube.selectBands names c).bands = names := rfl

theorem cell_joinBands (pA pB : String) (a bb : Cube) (b t y x : Nat) :
    (Cube.joinBands pA pB a bb).cell b t y x =
      if b < a.bands.length then a.cell b t y x
      else bb.cell (b - a.bands.length) t y x := rfl

theorem cell_selectBands (names : List String) (c : Cube) (b t y x : Nat) :
    (Cube.selectBands names c).cell b t y x =
      if b < names.length ∧ (names.getD b "") ∈ c.bands then
        c.cell (List.indexOf (names.getD b "") c.bands) t y x
      else none := rfl

/-- C5: for two cubes sharing an identical Cube View, the join-bands cube
publishes the concatenation of both children's optionally namespaced band
lists, its chunk buffer is the concatenation of both children's chunk
buffers for the same chunk id, and selecting the first child's namespaced
band names recovers exactly the first child's chunk. -/
theorem join_bands_semantics (a b : Cube) (pA pB : String)
    (hv : a.view = b.view) (hnd : (a.bands.map (applyNs pA)).Nodup) (id : ChunkId) :
    (Cube.joinBands pA pB a b).bands =
      a.bands.map (applyNs pA) ++ b.bands.map (applyNs pB) ∧
    ((Cube.joinBands pA pB a b).read_chunk id).buf =
      (a.read_chunk id).buf ++ (b.read_chunk id).buf ∧
    (Cube.selectBands (a.bands.map (applyNs pA))
        (Cube.joinBands pA pB a b)).read_chunk id = a.read_chunk id := by
  refine ⟨rfl, ?_, ?_⟩
  · rw [read_chunk_buf, read_chunk_buf, read_chunk_buf]
    simp only [joinBands_view, joinBands_bands, List.length_append, List.length_map]
    rw [List.range_add, List.map_append, List.map_map]
    congr 1
    · apply List.map_congr_left
      intro i hi
      have hiA : i < a.bands.length := by
        have := List.mem_range.mp hi
        simpa using this
      congr 1
      funext t y x
      rw [cell_joinBands, if_pos hiA]
    · apply List.map_congr_left
      intro i hi
      have hiB : i < b.bands.length := by
        have := List.mem_range.mp hi
        simpa using this
      simp only [Function.comp]
      rw [← hv]
      congr 1
      funext t y x
      rw [cell_joinBands, if_neg (by omega)]
      congr 1
      omega
  · refine Chunk.ext rfl rfl rfl ?_
    · rw [read_chunk_buf, read_chunk_buf]
      simp only [selectBands_view, selectBands_bands, joinBands_view, List.length_map]
      apply List.map_congr_left
      intro i hi
      have hiA : i < a.bands.length := by
        have := List.mem_range.mp hi
        simpa using this
      congr 1
      funext t y x
      rw [cell_selectBands]
      have hname : (a.bands.map (applyNs pA)).getD i "" = applyNs pA (a.bands.getD i "") :=
        getD_map_lt a.bands (applyNs pA) i hiA "" ""
      have hmemA : (a.bands.map (applyNs pA)).getD i "" ∈ a.bands.map (applyNs pA) := by
        rw [List.getD_eq_getElem?_getD, List.getElem?_eq_getElem (by simpa using hiA)]
        exact List.getElem_mem _
      have hmem : (a.bands.map (applyNs pA)).getD i "" ∈ (Cube.joinBands pA pB a b).bands := by
        rw [joinBands_bands]
        exact List.mem_append_left _ hmemA
      rw [if_pos ⟨by simpa using hiA, hmem⟩]
      rw [joinBands_bands, List.indexOf_append_of_mem hmemA]
      have hidx : List.indexOf ((a.bands.map (applyNs pA)).getD i "")
          (a.bands.map (applyNs pA)) = i := by
        have hget : (a.bands.map (applyNs pA)).getD i "" =
            (a.bands.map (applyNs pA)).get ⟨i, by simpa using hiA⟩ := by
          rw [List.getD_eq_getElem?_getD,
            List.getElem?_eq_getElem (by simpa using hiA : i < (a.bands.map (applyNs pA)).length)]
          rfl
        rw [hget, List.get_indexOf hnd]
      rw [hidx, cell_joinBands, if_pos hiA]

/-- Witness for C5 at two concrete one-band cubes with a shared view. -/
theorem join_bands_semantics_witness :
    ((Cube.joinBands "A" "B" srcSeq srcB9).read_chunk ⟨0, 0, 0⟩).buf =
      (srcSeq.read_chunk ⟨0, 0, 0⟩).buf ++ (srcB9.read_chunk ⟨0, 0, 0⟩).buf ∧
    (Cube.selectBands (srcSeq.bands.map (applyNs "A"))
        (Cube.joinBands "A" "B" srcSeq srcB9)).read_chunk ⟨0, 0, 0⟩ =
      srcSeq.read_chunk ⟨0, 0, 0⟩ :=
  ⟨(join_bands_semantics srcSeq srcB9 "A" "B" rfl (by decide) ⟨0, 0, 0⟩).2.1,
   (join_bands_semantics srcSeq srcB9 "A" "B" rfl (by decide) ⟨0, 0, 0⟩).2.2⟩

/-- C6: selecting a permutation of the child's band names and then
selecting all of the child's band names in original order is a no-op round
trip on band content, and each selection publishes exactly the requested
names in the requested order. -/
theorem select_bands_round_trip (c : Cube) (names : List String)
    (hnd : c.bands.Nodup)
    (hsub : ∀ n ∈ names, n ∈ c.bands)
    (hall : ∀ n ∈ c.bands, n ∈ names)
    (hnames : names.Nodup) (id : ChunkId) :
    (Cube.selectBands names c).bands = names ∧
    (Cube.selectBands c.bands (Cube.selectBands names c)).read_chunk id =
      c.read_chunk id := by
  refine ⟨rfl, ?_⟩
  refine Chunk.ext rfl rfl rfl ?_
  rw [read_chunk_buf, read_chunk_buf]
  simp only [selectBands_view, selectBands_bands]
  apply List.map_congr_left
  intro i hi
  have hiC : i < c.bands.length := List.mem_range.mp hi
  congr 1
  funext t y x
  rw [cell_selectBands]
  simp only [selectBands_bands]
  have hgetc : c.bands.getD i "" = c.bands.get ⟨i, hiC⟩ := by
    rw [List.getD_eq_getElem?_getD, List.getElem?_eq_getElem hiC]
    rfl
  have hmemc : c.bands.getD i "" ∈ c.bands := by
    rw [hgetc]
    exact List.get_mem _ _ hiC
  have hmem1 : c.bands.getD i "" ∈ names := hall _ hmemc
  rw [if_pos ⟨hiC, hmem1⟩, cell_selectBands]
  have hj : List.indexOf (c.bands.getD i "") names < names.length :=
    List.indexOf_lt_length.mpr hmem1
  have hnj : names.getD (List.indexOf (c.bands.getD i "") names) "" =
      c.bands.getD i "" := by
    rw [List.getD_eq_getElem?_getD, List.getElem?_eq_getElem hj]
    simp [List.getElem_indexOf]
  rw [hnj, if_pos ⟨hj, hmemc⟩]
  have hidx : List.indexOf (c.bands.getD i "") c.bands = i := by
    rw [hgetc, List.get_indexOf hnd]
  rw [hidx]

/-- Witness for C6: round trip through the permutation [B2, B1] over a
two-band cube. -/
theorem select_bands_round_trip_witness :
    (Cube.selectBands ["B2", "B1"] srcB5).bands = ["B2", "B1"] ∧
    (Cube.selectBands srcB5.bands
        (Cube.selectBands ["B2", "B1"] srcB5)).read_chunk ⟨0, 0, 0⟩ =
      srcB5.read_chunk ⟨0, 0, 0⟩ :=
  select_bands_round_trip srcB5 ["B2", "B1"] (by decide) (by decide) (by decide)
    (by decide) ⟨0, 0, 0⟩

/-- C7: for every cube node (every operator variant evaluates through the
shared `read_chunk`) and every chunk id, the returned buffer is sized to
the actual, possibly partial, extent of that chunk: each dimension is the
minimum of the nominal chunk size and the remaining cells, the buffer
holds one block per band, each block holds exactly dt·dy·dx cells, and a
partial last chunk gets exactly the remaining cells, never the nominal
shape. -/
theorem read_chunk_partial_extent (c : Cube) (id : ChunkId) :
    (c.read_chunk id).dt = asize c.view.nt c.view.ct id.t ∧
    (c.read_chunk id).dy = asize c.view.ny c.view.cy id.y ∧
    (c.read_chunk id).dx = asize c.view.nx c.view.cx id.x ∧
    (c.read_chunk id).buf.length = c.bands.length ∧
    (∀ blk ∈ (c.read_chunk id).buf,
      blk.length = (c.read_chunk id).dt * (c.read_chunk id).dy * (c.read_chunk id).dx) ∧
    (c.view.nt - id.t * c.view.ct < c.view.ct →
      (c.read_chunk id).dt = c.view.nt - id.t * c.view.ct) := by
  refine ⟨rfl, rfl, rfl, ?_, ?_, ?_⟩
  · rw [read_chunk_buf]
    simp
  · intro blk hblk
    rw [read_chunk_buf] at hblk
    obtain ⟨i, -, rfl⟩ := List.mem_map.mp hblk
    rw [mkBlock_length]
    rfl
  · intro hpart
    rw [read_chunk_dt]
    exact Nat.min_eq_right (Nat.le_of_lt hpart)

/-- Witness for C7 at srcPart's partial second time chunk. -/
theorem read_chunk_partial_extent_witness :
    (srcPart.read_chunk ⟨1, 0, 0⟩).dt = 1 ∧
    ((srcPart.read_chunk ⟨1, 0, 0⟩).buf.getD 0 []).length = 1 := by
  have h := read_chunk_partial_extent srcPart ⟨1, 0, 0⟩
  constructor
  · have hd := h.2.2.2.2.2 (by decide)
    rw [hd]
    decide
  · have hm : (srcPart.read_chunk ⟨1, 0, 0⟩).buf.getD 0 [] ∈
        (srcPart.read_chunk ⟨1, 0, 0⟩).buf := by decide
    have hl := h.2.2.2.2.1 _ hm
    rw [hl]
    decide

theorem lookup_runSchedule (c : Cube) (order : List ChunkId) (id : ChunkId)
    (h : id ∈ order) :
    lookupChunk (runSchedule c order) id = some (c.read_chunk id) := by
  induction order with
  | nil => cases h
  | cons a l ih =>
    by_cases ha : a = id
    · subst ha
      simp [runSchedule, lookupChunk]
    · have hmem : id ∈ l := by
        rcases List.mem_cons.mp h with h1 | h1
        · exact absurd h1.symm ha
        · exact h1
      have hprev := ih hmem
      simp only [runSchedule, lookupChunk, List.map_cons, List.find?_cons] at *
      simp only [decide_eq_true_eq, ha, decide_False] at *
      exact hprev

/-- C8: determinism of evaluation: for any two completion orders of the
scheduler (covering repeated calls, 1-thread vs N-thread evaluation, and
arbitrary interleavings with other chunk ids), the chunk collected for a
given id is the same, namely the one produced by `read_chunk`. -/
theorem read_chunk_deterministic (c : Cube) (o1 o2 : List ChunkId) (id : ChunkId)
    (h1 : id ∈ o1) (h2 : id ∈ o2) :
    lookupChunk (runSchedule c o1) id = lookupChunk (runSchedule c o2) id ∧
    lookupChunk (runSchedule c o1) id = some (c.read_chunk id) := by
  have a1 := lookup_runSchedule c o1 id h1
  have a2 := lookup_runSchedule c o2 id h2
  exact ⟨a1.trans a2.symm, a1⟩

/-- Witness for C8 at two concrete schedules of srcB5's chunks. -/
theorem read_chunk_deterministic_witness :
    lookupChunk (runSchedule srcB5 [⟨0, 0, 0⟩]) ⟨0, 0, 0⟩ =
      lookupChunk (runSchedule srcB5 [⟨1, 0, 0⟩, ⟨0, 0, 0⟩]) ⟨0, 0, 0⟩ :=
  (read_chunk_deterministic srcB5 [⟨0, 0, 0⟩] [⟨1, 0, 0⟩, ⟨0, 0, 0⟩] ⟨0, 0, 0⟩
    (by decide) (by decide)).1

/-- C9: invalid node configurations (select-bands naming an unknown band,
apply-pixel referencing an unknown band, join of children with different
views) fail at construction with an error and no cube is returned, while
valid configurations construct successfully. -/
theorem construction_errors_eager :
    (∀ (c : Cube) (names : List String),
      ¬ (names.all (fun n => c.bands.contains n) = true) →
        (libgdalcubes_create_select_bands_cube c names).toOption = none) ∧
    (∀ (c : Cube) (names : List String),
      names.all (fun n => c.bands.contains n) = true →
        (libgdalcubes_create_select_bands_cube c names).toOption =
          some (Cube.selectBands names c)) ∧
    (∀ (c : Cube) (exprs : List Expr) (names : List String) (keep : Bool),
      ¬ (exprs.all (fun e => e.bandRefs.all (fun n => c.bands.contains n)) = true) →
        (libgdalcubes_create_apply_pixel_cube c exprs names keep).toOption = none) ∧
    (∀ (c : Cube) (exprs : List Expr) (names : List String) (keep : Bool),
      exprs.all (fun e => e.bandRefs.all (fun n => c.bands.contains n)) = true →
        (libgdalcubes_create_apply_pixel_cube c exprs names keep).toOption =
          some (Cube.applyPixel exprs names keep c)) ∧
    (∀ (a b : Cube) (pA pB : String), a.view ≠ b.view →
      (libgdalcubes_create_join_bands_cube a b pA pB).toOption = none) ∧
    (∀ (a b : Cube) (pA pB : String), a.view = b.view →
      (libgdalcubes_create_join_bands_cube a b pA pB).toOption =
        some (Cube.joinBands pA pB a b)) := by
  refine ⟨?_, ?_, ?_, ?_, ?_, ?_⟩ <;> intros <;>
    simp_all [libgdalcubes_create_select_bands_cube,
      libgdalcubes_create_apply_pixel_cube,
      libgdalcubes_create_join_bands_cube, Except.toOption] <;>
    split_ifs <;> first | simp_all | tauto

/-- Witness for C9 at concrete valid and invalid configurations. -/
theorem construction_errors_eager_witness :
    (libgdalcubes_create_select_bands_cube srcB5 ["Z"]).toOption = none ∧
    (libgdalcubes_create_select_bands_cube srcB5 ["B1"]).toOption =
      some (Cube.selectBands ["B1"] srcB5) ∧
    (libgdalcubes_create_apply_pixel_cube srcB5 [Expr.band "Z"] ["N"] false).toOption
      = none ∧
    (libgdalcubes_create_join_bands_cube srcB5 srcSeq "A" "B").toOption = none := by
  have h := construction_errors_eager
  exact ⟨h.1 srcB5 ["Z"] (by decide), h.2.1 srcB5 ["B1"] (by decide),
    h.2.2.1 srcB5 [Expr.band "Z"] ["N"] false (by decide),
    h.2.2.2.2.1 srcB5 srcSeq "A" "B" (by decide)⟩

theorem streamBandNames_length (nb : Nat) (names : List String) :
    (streamBandNames nb names).length = nb := by
  unfold streamBandNames
  split_ifs with h
  · exact h
  · simp

/-- C10: the declared output band count of the dummy cube and the
streaming reduce-time / apply-pixel cubes is received through an unsigned
16-bit parameter: the resulting band count is the caller's value reduced
modulo 2^16, hence at most 65535, and a value outside [0, 65535] is
reduced at the interface (construction stays total) rather than rejected;
in particular 65541 yields 5 bands. -/
theorem uint16_band_count
    (v : CubeView) (fill : ℚ) (c : Cube) (cmd : String) (names : List String)
    (procR : List (List (Option ℚ)) → List (Option ℚ))
    (procA : List (Option ℚ) → List (Option ℚ)) (n : Int) :
    (libgdalcubes_create_dummy_cube v n fill).bands.length = uint16OfInt n ∧
    (libgdalcubes_create_stream_reduce_time_cube c cmd n names procR).bands.length
      = uint16OfInt n ∧
    (libgdalcubes_create_stream_apply_pixel_cube c cmd n names false procA).bands.length
      = uint16OfInt n ∧
    uint16OfInt n < 65536 ∧
    uint16OfInt n = uint16OfInt (n % 65536) ∧
    libgdalcubes_create_dummy_cube v n fill =
      libgdalcubes_create_dummy_cube v (n % 65536) fill ∧
    uint16OfInt 65541 = 5 := by
  have hlt : uint16OfInt n < 65536 := by
    unfold uint16OfInt
    omega
  have hmod : uint16OfInt n = uint16OfInt (n % 65536) := by
    unfold uint16OfInt
    omega
  refine ⟨?_, ?_, ?_, hlt, hmod, ?_, by decide⟩
  · simp [libgdalcubes_create_dummy_cube, Cube.bands]
  · show (streamBandNames (uint16OfInt n) names).length = uint16OfInt n
    exact streamBandNames_length _ _
  · show ((if false then c.bands else []) ++ streamBandNames (uint16OfInt n) names).length
      = uint16OfInt n
    simp [streamBandNames_length]
  · unfold libgdalcubes_create_dummy_cube
    rw [hmod]

end Gdalcubes
